import Mathlib

/-!
Verification development for the TypeScript Crossplane function SDK.
We shallowly embed the request/response helper layer: JavaScript values are
modelled by `JsonValue` (with both `null` and `undefined`), JS objects by
association lists of fields, and the external `ts-deepmerge` library by the
recursive structural merge documented in the repository's design notes
(plain objects merge key-wise recursively, arrays concatenate, scalars are
overwritten by the source side). In-place mutation is modelled by explicit
state passing: an operation that mutates its argument returns the updated
value.
-/

namespace FnSdk

/-- A JavaScript runtime value, as manipulated by the SDK helpers.
Both `null` and `undefined` are representable and distinct. Numbers are
modelled as integers (no claim concerns floating point). -/
inductive JsonValue where
  | null : JsonValue
  | undef : JsonValue
  | bool (b : Bool) : JsonValue
  | num (n : Int) : JsonValue
  | str (s : String) : JsonValue
  | arr (elems : List JsonValue) : JsonValue
  | obj (fields : List (String × JsonValue)) : JsonValue

/-- The fields of a JS object: an ordered association list. -/
abbrev Fields := List (String × JsonValue)

/-- Keys of a JS object's field list, in order. -/
def keysOf (fs : Fields) : List String := fs.map Prod.fst

/-- JS property read with optional-chaining semantics: `v?.[k]` is the bound
value when `v` is an object containing `k`, and `undefined` otherwise. -/
def getField (v : JsonValue) (k : String) : JsonValue :=
  match v with
  | .obj fs => (fs.lookup k).getD JsonValue.undef
  | _ => JsonValue.undef

/-- JS truthiness: `undefined`, `null`, `false`, `0` and `""` are falsy;
every array and object (including empty ones) is truthy. -/
def jsTruthy : JsonValue → Bool
  | .null => false
  | .undef => false
  | .bool b => b
  | .num n => n != 0
  | .str s => s != ""
  | .arr _ => true
  | .obj _ => true

/-- JS property assignment `o[k] = v` on an object: replace the first binding
of `k` in place, or append the binding when `k` is absent. On non-objects the
value is returned unchanged. -/
def replaceField : Fields → String → JsonValue → Fields
  | [], k, v => [(k, v)]
  | (k', v') :: fs, k, v =>
    if k' = k then (k', v) :: fs else (k', v') :: replaceField fs k v

mutual

/-- The value-combination rule of `ts-deepmerge`, as documented by the spec's
design notes: two arrays concatenate, two plain objects merge key-wise
recursively, and in every other case the source (second) value wins. -/
def mergeJson : JsonValue → JsonValue → JsonValue
  | .arr xs, .arr ys => .arr (xs ++ ys)
  | .obj fs, .obj gs => .obj (mergeFields fs gs)
  | _, b => b
termination_by _ b => (sizeOf b, 0)

/-- Merge the source field list `gs` into the target field list `fs`,
key by key in source order, combining colliding values with `mergeJson`. -/
def mergeFields (fs : Fields) : Fields → Fields
  | [] => fs
  | (k, v) :: gs =>
    mergeFields
      (replaceField fs k
        (match fs.lookup k with
         | some old => mergeJson old v
         | none => v)) gs
termination_by gs => (sizeOf gs, 1)

end

mutual

/-- A JS value contains no arrays anywhere. -/
def arrayFree : JsonValue → Bool
  | .arr _ => false
  | .obj fs => arrayFreeFields fs
  | _ => true

/-- Every value of a field list is array-free. -/
def arrayFreeFields : Fields → Bool
  | [] => true
  | (_, v) :: fs => arrayFree v && arrayFreeFields fs

end

/-- A list of keys is duplicate-free (executable form). -/
def distinctKeys : List String → Bool
  | [] => true
  | k :: ks => !ks.contains k && distinctKeys ks

mutual

/-- A JS value is well formed when every object in it has duplicate-free
keys, as every actual JavaScript object does. -/
def wfJson : JsonValue → Bool
  | .obj fs => distinctKeys (keysOf fs) && wfFields fs
  | .arr xs => wfArr xs
  | _ => true

/-- Every value of the field list is well formed. -/
def wfFields : Fields → Bool
  | [] => true
  | (_, v) :: fs => wfJson v && wfFields fs

/-- Every element of the list is well formed. -/
def wfArr : List JsonValue → Bool
  | [] => true
  | v :: vs => wfJson v && wfArr vs

end

/-- A possibly-missing JS value of a typed shape: a field typed `T | undefined`
in the protobuf-generated interfaces may at runtime hold `undefined`, `null`
(when decoded from JSON), or a value of the shape. -/
inductive JsOpt (α : Type) where
  | undef : JsOpt α
  | null : JsOpt α
  | val (a : α) : JsOpt α
deriving DecidableEq

/-- A protobuf `Duration` (from `google/protobuf/duration.js`). -/
structure DurationV where
  seconds : Int
  nanos : Int
deriving DecidableEq

/-- Result severities, mirroring the generated `Severity` enum
(`SEVERITY_UNSPECIFIED`, `SEVERITY_FATAL`, `SEVERITY_WARNING`,
`SEVERITY_NORMAL`). -/
inductive SeverityV where
  | unspecified : SeverityV
  | fatal : SeverityV
  | warning : SeverityV
  | normal : SeverityV
deriving DecidableEq

/-- A `Result` entry of a response. The helpers push object literals holding
only `severity` and `message`; the optional `reason` and `target` keys are
left `undefined`. -/
structure ResultV where
  severity : SeverityV
  message : String
  reason : JsOpt String
  target : JsOpt Int
deriving DecidableEq

/-- `RequestMeta`: the request's correlation tag. -/
structure RequestMetaV where
  tag : String
deriving DecidableEq

/-- `ResponseMeta`: the response's correlation tag and optional ttl. -/
structure ResponseMetaV where
  tag : String
  ttl : JsOpt DurationV
deriving DecidableEq

/-- A `State` tree: a composite resource plus a name→resource map. The
`Resource` values are plain JS objects at runtime (the deep merge treats them
as such), so both fields are modelled as JS values: `composite` is a resource
object, `null` or `undefined`; `resources` is an object whose field values
are resource objects. -/
structure StateV where
  composite : JsonValue
  resources : JsonValue

/-- `CredentialData`: a map of keys to binary data (bytes). -/
structure CredentialDataV where
  data : List (String × List Nat)
deriving DecidableEq

/-- `Credentials`: optional credential data loaded by Crossplane. -/
structure CredentialsV where
  credentialData : JsOpt CredentialDataV
deriving DecidableEq

/-- A `RunFunctionRequest`, with the fields the helper layer reads. -/
structure RunFunctionRequestV where
  meta : JsOpt RequestMetaV
  observed : JsOpt StateV
  desired : JsOpt StateV
  input : JsonValue
  context : JsonValue
  credentials : JsOpt (List (String × CredentialsV))

/-- A `RunFunctionResponse`, with the fields the helper layer writes. -/
structure RunFunctionResponseV where
  meta : JsOpt ResponseMetaV
  desired : JsOpt StateV
  results : JsOpt (List ResultV)
  context : JsonValue
  requirements : JsonValue
  conditions : JsonValue
  output : JsonValue

/-- A thrown JS value: either an `Error` object carrying a message, or any
other value together with its `String(...)` rendering. -/
inductive Thrown where
  | errorObj (message : String) : Thrown
  | nonError (stringRep : String) : Thrown
deriving DecidableEq

/-- The text the runner extracts from a thrown value:
`error instanceof Error ? error.message : String(error)`. -/
def thrownMessage : Thrown → String
  | .errorObj m => m
  | .nonError s => s

/-- Default time-to-live for function responses (60 seconds). -/
def DEFAULT_TTL : DurationV := { seconds := 60, nanos := 0 }

/-- Modelled from the spec: `Resource.fromJSON({})` of the generated protobuf
module (generated code, not under `src/`) materializes an "empty composite
resource": a defined object whose `resource` is `undefined`, whose
`connectionDetails` map is empty, and whose readiness is unspecified (`0`). -/
def emptyResource : JsonValue :=
  .obj [(("resource"), .undef), (("connectionDetails"), .obj []), (("ready"), .num 0)]

/-- The string `req.meta?.tag || ""` computed by `to`. -/
def jsTagOf (req : RunFunctionRequestV) : String :=
  match req.meta with
  | .val m => if m.tag = ("") then ("") else m.tag
  | _ => ("")

/-- `to(req, ttl?)` from `src/response/response.ts`. The source mutates the
request's desired tree in place when its composite is explicitly `null`, so
the embedding passes state explicitly: it returns the response together with
the request as it stands after the call. When the request has a desired
tree, the response's `desired` is that same (possibly updated) tree. -/
def toResponse (req : RunFunctionRequestV) (ttl : Option DurationV) :
    RunFunctionResponseV × RunFunctionRequestV :=
  let desired : StateV :=
    match req.desired with
    | .val d =>
      match d.composite with
      | .null => { d with composite := emptyResource }
      | _ => d
    | _ => { composite := .undef, resources := .obj [] }
  let req' : RunFunctionRequestV :=
    match req.desired with
    | .val _ => { req with desired := .val desired }
    | _ => req
  ({ meta := .val { tag := jsTagOf req, ttl := .val (ttl.getD DEFAULT_TTL) },
     desired := .val desired,
     results := .val [],
     context := req.context,
     requirements := .undef,
     conditions := .arr [],
     output := .undef }, req')

/-- `getContextKey(req, key)` from `src/request/request.ts`: returns
`[req.context[key], true]` when the context exists and contains the key
(`key in req.context`, so a key bound to `null` or `undefined` still counts),
and `[undefined, false]` otherwise. -/
def getContextKey (req : RunFunctionRequestV) (key : String) :
    JsonValue × Bool :=
  match req.context with
  | .obj fs =>
    match fs.lookup key with
    | some v => (v, true)
    | none => (.undef, false)
  | _ => (.undef, false)

/-- `getCredentials(req, name)` from `src/request/request.ts`: looks up
`req.credentials?.[name]` and throws `credentials "<name>" not found` when
the lookup yields nothing. -/
def getCredentials (req : RunFunctionRequestV) (name : String) :
    Except Thrown CredentialsV :=
  match req.credentials with
  | .val m =>
    match m.lookup name with
    | some c => .ok c
    | none => .error (.errorObj (("credentials \"") ++ name ++ ("\" not found")))
  | _ => .error (.errorObj (("credentials \"") ++ name ++ ("\" not found")))

/-- The truthy branch of `fatal`: push one fatal result onto the response's
results list if that list exists, else do nothing. -/
def fatalCore (r : RunFunctionResponseV) (message : String) :
    RunFunctionResponseV :=
  match r.results with
  | .val rs =>
    let entry : ResultV :=
      { severity := .fatal, message := message, reason := .undef, target := .undef }
    { r with results := .val (rs ++ [entry]) }
  | _ => r

/-- `fatal(rsp, message)` from `src/response/response.ts`: guarded by
`if (rsp && rsp.results)`, so it is a no-op when the response or its results
list is absent. Mutation is modelled by returning the updated response. -/
def fatal (rsp : JsOpt RunFunctionResponseV) (message : String) :
    JsOpt RunFunctionResponseV :=
  match rsp with
  | .val r => .val (fatalCore r message)
  | _ => rsp

/-- `normal(rsp, message)`: like `fatal` but pushing a normal result. -/
def normal (rsp : JsOpt RunFunctionResponseV) (message : String) :
    JsOpt RunFunctionResponseV :=
  match rsp with
  | .val r =>
    match r.results with
    | .val rs =>
      let entry : ResultV :=
        { severity := .normal, message := message, reason := .undef, target := .undef }
      .val { r with results := .val (rs ++ [entry]) }
    | _ => .val r
  | _ => rsp

/-- `warning(rsp, message)`: like `fatal` but pushing a warning result. -/
def warning (rsp : JsOpt RunFunctionResponseV) (message : String) :
    JsOpt RunFunctionResponseV :=
  match rsp with
  | .val r =>
    match r.results with
    | .val rs =>
      let entry : ResultV :=
        { severity := .warning, message := message, reason := .undef, target := .undef }
      .val { r with results := .val (rs ++ [entry]) }
    | _ => .val r
  | _ => rsp

/-- `setDesiredComposedResources(rsp, dcds)` from `src/response/response.ts`:
create the desired tree if absent, then
`rsp.desired.resources = merge(rsp.desired.resources || {}, dcds)`. -/
def setDesiredComposedResources (rsp : RunFunctionResponseV) (dcds : Fields) :
    RunFunctionResponseV :=
  let d : StateV :=
    match rsp.desired with
    | .val d => d
    | _ => { composite := .undef, resources := .obj [] }
  let base : Fields :=
    match d.resources with
    | .obj fs => fs
    | _ => []
  { rsp with desired := .val { d with resources := .obj (mergeFields base dcds) } }

/-- JS property assignment `o[k] = v` as a value transformer. -/
def setProp (v : JsonValue) (k : String) (w : JsonValue) : JsonValue :=
  match v with
  | .obj fs => .obj (replaceField fs k w)
  | _ => v

/-- `setDesiredCompositeStatus({rsp, status})` from
`src/response/response.ts`: only when `rsp.desired?.composite?.resource` is
truthy, replace that resource object by
`merge(rsp.desired.composite.resource, {status: status})`; otherwise the
response is returned unchanged. -/
def setDesiredCompositeStatus (rsp : RunFunctionResponseV) (status : Fields) :
    RunFunctionResponseV :=
  match rsp.desired with
  | .val d =>
    let res := getField d.composite (("resource"))
    if jsTruthy res then
      let merged := mergeJson res (.obj [((("status")), .obj status)])
      let comp := setProp d.composite (("resource")) merged
      { rsp with desired := .val { d with composite := comp } }
    else rsp
  | _ => rsp

/-- `FunctionRunner.RunFunction` from `src/function/function.ts`: delegate to
the user handler; when the handler throws, synthesize `to(req)` and append
one fatal result carrying the thrown value's message, then return that
response successfully. The handler is modelled as a function that either
returns a response or throws. -/
def FunctionRunner.RunFunction
    (handler : RunFunctionRequestV → Except Thrown RunFunctionResponseV)
    (req : RunFunctionRequestV) : RunFunctionResponseV :=
  match handler req with
  | .ok rsp => rsp
  | .error e => fatalCore (toResponse req none).1 (thrownMessage e)

/-- Combine an optional existing value with a source value, as `ts-deepmerge`
does at one key: merge when something was there, else take the source. -/
def mergeOpt : Option JsonValue → JsonValue → JsonValue
  | some old, v => mergeJson old v
  | none, v => v

/-- The JS value denoted by `req.meta?.tag`. -/
def reqTagJs (req : RunFunctionRequestV) : JsonValue :=
  match req.meta with
  | .val m => .str m.tag
  | _ => JsonValue.undef

/-- The JS value denoted by `rsp.meta?.tag`. -/
def respTagJs (rsp : RunFunctionResponseV) : JsonValue :=
  match rsp.meta with
  | .val m => .str m.tag
  | _ => JsonValue.undef

/-- The JS value denoted by `rsp.desired?.composite`. -/
def respCompositeOf (rsp : RunFunctionResponseV) : JsonValue :=
  match rsp.desired with
  | .val d => d.composite
  | _ => JsonValue.undef

/-- The JS value denoted by `rsp.desired?.composite?.resource`. -/
def respCompositeResourceOf (rsp : RunFunctionResponseV) : JsonValue :=
  getField (respCompositeOf rsp) (("resource"))

/-- The field list of the response's desired resources map
(`rsp.desired?.resources`, read as an object; empty when absent). -/
def respDesiredResourceFields (rsp : RunFunctionResponseV) : Fields :=
  match rsp.desired with
  | .val d =>
    match d.resources with
    | .obj fs => fs
    | _ => []
  | _ => []

/-- The desired state that `setDesiredComposedResources` leaves behind: the
composite it found (or the synthesized `undefined` one) together with the
merged resources map. -/
def mergedState (rsp : RunFunctionResponseV) (dcds : Fields) : StateV :=
  { composite := respCompositeOf rsp,
    resources := .obj (mergeFields (respDesiredResourceFields rsp) dcds) }

/-- The credentials lookup `req.credentials?.[name]`. -/
def credLookup (req : RunFunctionRequestV) (name : String) :
    Option CredentialsV :=
  match req.credentials with
  | .val m => m.lookup name
  | _ => none

/-- The proposition that a response value has no results list to push to:
the response itself is `undefined`/`null`, or its results list is. -/
def resultsAbsent (rsp : JsOpt RunFunctionResponseV) : Prop :=
  match rsp with
  | .val r => r.results = .undef ∨ r.results = .null
  | _ => True

/-- A sample response whose desired resources map is `{a: 1}`. -/
def rspWithA : RunFunctionResponseV :=
  { meta := .undef, desired := .val { composite := .undef, resources := .obj [((("a")), .num 1)] },
    results := .val [], context := .undef, requirements := .undef,
    conditions := .arr [], output := .undef }

/-- A sample response whose desired composite resource carries status
`{existingField: "preserved"}`. -/
def rspWithStatus : RunFunctionResponseV :=
  { meta := .undef,
    desired := .val { composite := .obj [((("resource")), .obj [((("status")), .obj [((("existingField")), .str (("preserved")))])])], resources := .obj [] },
    results := .val [], context := .undef, requirements := .undef,
    conditions := .arr [], output := .undef }

/-- A sample response whose desired composite exists but has no resource
object. -/
def rspNoResource : RunFunctionResponseV :=
  { meta := .undef,
    desired := .val { composite := .obj [((("resource")), .undef)], resources := .obj [] },
    results := .val [], context := .undef, requirements := .undef,
    conditions := .arr [], output := .undef }

/-- A sample desired-resources map whose single resource carries an array
field: `{r: {xs: [1]}}`. -/
def dcdsArr : Fields := [((("r")), .obj [((("xs")), .arr [.num 1])])]

/-- The result entry the helpers push: severity and message, with the
optional keys absent. -/
def mkResult (sev : SeverityV) (msg : String) : ResultV :=
  { severity := sev, message := msg, reason := .undef, target := .undef }

/-- A minimal request: every optional part absent. -/
def baseReq : RunFunctionRequestV :=
  { meta := .undef, observed := .undef, desired := .undef,
    input := .undef, context := .undef, credentials := .undef }

/-- A sample context object binding key `k` to `null`. -/
def ctxFieldsK : Fields := [((("k")), JsonValue.null)]

/-- A sample request whose context binds `k` to `null`. -/
def reqWithCtx : RunFunctionRequestV := { baseReq with context := .obj ctxFieldsK }

/-- A sample request carrying one credentials entry named `aws`. -/
def reqWithCreds : RunFunctionRequestV :=
  { baseReq with credentials := .val [((("aws")), { credentialData := .undef })] }

/-- A sample request carrying an empty credentials map. -/
def reqEmptyCreds : RunFunctionRequestV := { baseReq with credentials := .val [] }

/-- A sample request whose desired composite is explicitly `null`. -/
def reqNullComposite : RunFunctionRequestV :=
  { baseReq with desired := .val { composite := JsonValue.null, resources := .obj [] } }

/-- A minimal response with an (empty) results list. -/
def baseRsp : RunFunctionResponseV :=
  { meta := .undef, desired := .undef, results := .val [],
    context := .undef, requirements := .undef, conditions := .arr [],
    output := .undef }

end FnSdk

namespace FnSdk

theorem mergeFields_nil (fs : Fields) : mergeFields fs [] = fs := by
  simp [mergeFields]

theorem mergeFields_cons (fs : Fields) (k : String) (v : JsonValue)
    (gs : Fields) :
    mergeFields fs ((k, v) :: gs) =
      mergeFields (replaceField fs k (mergeOpt (fs.lookup k) v)) gs := by
  cases h : fs.lookup k <;> simp [mergeFields, mergeOpt, h]

theorem lookup_nil (k : String) : ([] : Fields).lookup k = none := rfl

theorem lookup_cons (k k' : String) (v : JsonValue) (fs : Fields) :
    ((k', v) :: fs).lookup k = if k = k' then some v else fs.lookup k := by
  rw [List.lookup]
  by_cases h : k = k'
  · rw [if_pos h, show (k == k') = true from beq_iff_eq.mpr h]
  · rw [if_neg h, show (k == k') = false from beq_eq_false_iff_ne.mpr h]

theorem lookup_cons_self (k : String) (v : JsonValue) (fs : Fields) :
    ((k, v) :: fs).lookup k = some v := by
  rw [lookup_cons, if_pos rfl]

theorem lookup_cons_ne {k k' : String} (v' : JsonValue) (fs : Fields)
    (h : k ≠ k') : ((k', v') :: fs).lookup k = fs.lookup k := by
  rw [lookup_cons, if_neg h]

theorem lookup_eq_none_of_not_mem {fs : Fields} {k : String}
    (h : k ∉ keysOf fs) : fs.lookup k = none := by
  induction fs with
  | nil => rfl
  | cons p fs ih =>
    obtain ⟨k', v'⟩ := p
    simp [keysOf] at h
    rw [lookup_cons_ne v' fs h.1]
    exact ih (by simp [keysOf, h.2])

theorem mem_of_lookup_eq_some {fs : Fields} {k : String} {v : JsonValue}
    (h : fs.lookup k = some v) : (k, v) ∈ fs := by
  induction fs with
  | nil => cases h
  | cons p fs ih =>
    obtain ⟨k', v'⟩ := p
    by_cases hk : k = k'
    · subst hk
      rw [lookup_cons_self] at h
      have hv : v' = v := Option.some.inj h
      subst hv
      exact List.mem_cons_self _ _
    · rw [lookup_cons_ne v' fs hk] at h
      exact List.mem_cons_of_mem _ (ih h)

theorem lookup_replaceField_self (fs : Fields) (k : String) (v : JsonValue) :
    (replaceField fs k v).lookup k = some v := by
  induction fs with
  | nil => rw [replaceField, lookup_cons_self]
  | cons p fs ih =>
    obtain ⟨k', v'⟩ := p
    by_cases h : k' = k
    · subst h; rw [replaceField, if_pos rfl, lookup_cons_self]
    · rw [replaceField, if_neg h, lookup_cons_ne v' _ (Ne.symm h)]
      exact ih

theorem lookup_replaceField_ne (fs : Fields) {k k' : String} (v : JsonValue)
    (h : k ≠ k') : (replaceField fs k' v).lookup k = fs.lookup k := by
  induction fs with
  | nil => rw [replaceField, lookup_cons_ne _ _ h, lookup_nil]
  | cons p fs ih =>
    obtain ⟨k2, v2⟩ := p
    by_cases h2 : k2 = k'
    · subst h2
      rw [replaceField, if_pos rfl, lookup_cons_ne v _ h, lookup_cons_ne v2 _ h]
    · rw [replaceField, if_neg h2]
      by_cases h3 : k = k2
      · subst h3; rw [lookup_cons_self, lookup_cons_self]
      · rw [lookup_cons_ne v2 _ h3, lookup_cons_ne v2 _ h3]
        exact ih

theorem keysOf_cons (k : String) (v : JsonValue) (fs : Fields) :
    keysOf ((k, v) :: fs) = k :: keysOf fs := rfl

theorem keysOf_replaceField (fs : Fields) (k : String) (v : JsonValue) :
    keysOf (replaceField fs k v) =
      if k ∈ keysOf fs then keysOf fs else keysOf fs ++ [k] := by
  induction fs with
  | nil => simp [replaceField, keysOf]
  | cons p fs ih =>
    obtain ⟨k', v'⟩ := p
    by_cases h : k' = k
    · subst h; simp [replaceField, keysOf]
    · rw [replaceField, if_neg h, keysOf_cons, keysOf_cons, ih]
      have hne : ¬ k = k' := fun hk => h hk.symm
      by_cases hm : k ∈ keysOf fs
      · simp [hm, hne]
      · simp [hm, hne]

theorem keysOf_subset_replaceField (fs : Fields) (k : String) (v : JsonValue) :
    keysOf fs ⊆ keysOf (replaceField fs k v) := by
  rw [keysOf_replaceField]
  split
  · exact fun x hx => hx
  · exact fun x hx => List.mem_append_left _ hx

theorem self_mem_keysOf_replaceField (fs : Fields) (k : String)
    (v : JsonValue) : k ∈ keysOf (replaceField fs k v) := by
  rw [keysOf_replaceField]
  split
  · assumption
  · exact List.mem_append_right _ (by simp)

theorem keysOf_subset_mergeFields (gs : Fields) (fs : Fields) :
    keysOf fs ⊆ keysOf (mergeFields fs gs) := by
  induction gs generalizing fs with
  | nil => rw [mergeFields_nil]; exact fun x hx => hx
  | cons p gs ih =>
    obtain ⟨k, v⟩ := p
    rw [mergeFields_cons]
    exact fun x hx => ih _ (keysOf_subset_replaceField fs k _ hx)

theorem keysOf_source_subset_mergeFields (gs : Fields) (fs : Fields) :
    keysOf gs ⊆ keysOf (mergeFields fs gs) := by
  induction gs generalizing fs with
  | nil => intro x hx; cases hx
  | cons p gs ih =>
    obtain ⟨k, v⟩ := p
    rw [mergeFields_cons, keysOf_cons]
    intro x hx
    rcases List.mem_cons.mp hx with h | h
    · subst h
      exact keysOf_subset_mergeFields gs _ (self_mem_keysOf_replaceField fs x _)
    · exact ih _ h

theorem keysOf_mergeFields_of_subset (gs : Fields) (fs : Fields)
    (h : keysOf gs ⊆ keysOf fs) :
    keysOf (mergeFields fs gs) = keysOf fs := by
  induction gs generalizing fs with
  | nil => rw [mergeFields_nil]
  | cons p gs ih =>
    obtain ⟨k, v⟩ := p
    rw [mergeFields_cons]
    have hk : k ∈ keysOf fs := h (by simp [keysOf_cons])
    have hrep : keysOf (replaceField fs k (mergeOpt (fs.lookup k) v)) = keysOf fs := by
      rw [keysOf_replaceField, if_pos hk]
    rw [ih _ (by rw [hrep]; intro x hx; exact h (by simp [keysOf_cons, hx]))]
    exact hrep

theorem nodup_keysOf_mergeFields (gs : Fields) (fs : Fields)
    (h1 : (keysOf fs).Nodup) (h2 : (keysOf gs).Nodup) :
    (keysOf (mergeFields fs gs)).Nodup := by
  induction gs generalizing fs with
  | nil => rw [mergeFields_nil]; exact h1
  | cons p gs ih =>
    obtain ⟨k, v⟩ := p
    rw [keysOf_cons, List.nodup_cons] at h2
    rw [mergeFields_cons]
    refine ih _ ?_ h2.2
    rw [keysOf_replaceField]
    split
    · exact h1
    · next hm =>
      rw [List.nodup_append]
      exact ⟨h1, List.nodup_singleton k, by
        intro x hx hx'
        simp at hx'
        subst hx'
        exact hm hx⟩

theorem lookup_mergeFields_not_mem (gs : Fields) (fs : Fields) (k : String)
    (h : k ∉ keysOf gs) :
    (mergeFields fs gs).lookup k = fs.lookup k := by
  induction gs generalizing fs with
  | nil => rw [mergeFields_nil]
  | cons p gs ih =>
    obtain ⟨k', v⟩ := p
    rw [keysOf_cons] at h
    simp only [List.mem_cons, not_or] at h
    rw [mergeFields_cons, ih _ h.2, lookup_replaceField_ne _ _ h.1]

theorem lookup_mergeFields (gs : Fields) (hnd : (keysOf gs).Nodup)
    (fs : Fields) (k : String) :
    (mergeFields fs gs).lookup k =
      match gs.lookup k with
      | some v => some (mergeOpt (fs.lookup k) v)
      | none => fs.lookup k := by
  induction gs generalizing fs with
  | nil => rw [mergeFields_nil]; simp [List.lookup]
  | cons p gs ih =>
    obtain ⟨k', v'⟩ := p
    rw [keysOf_cons, List.nodup_cons] at hnd
    rw [mergeFields_cons]
    by_cases hk : k = k'
    · subst hk
      have hgs : gs.lookup k = none := lookup_eq_none_of_not_mem hnd.1
      rw [ih hnd.2, hgs, lookup_cons_self, lookup_replaceField_self]
    · rw [ih hnd.2, lookup_cons_ne v' gs hk, lookup_replaceField_ne _ _ hk]

theorem lookup_mergeFields_some (gs : Fields) (hnd : (keysOf gs).Nodup)
    (fs : Fields) (k : String) (v : JsonValue) (h : gs.lookup k = some v) :
    (mergeFields fs gs).lookup k = some (mergeOpt (fs.lookup k) v) := by
  rw [lookup_mergeFields gs hnd fs k, h]

theorem lookup_mergeFields_none (gs : Fields) (hnd : (keysOf gs).Nodup)
    (fs : Fields) (k : String) (h : gs.lookup k = none) :
    (mergeFields fs gs).lookup k = fs.lookup k := by
  rw [lookup_mergeFields gs hnd fs k, h]

theorem fields_ext (as : Fields) (bs : Fields)
    (hk : keysOf as = keysOf bs) (hnd : (keysOf as).Nodup)
    (hl : ∀ k, as.lookup k = bs.lookup k) : as = bs := by
  induction as generalizing bs with
  | nil =>
    cases bs with
    | nil => rfl
    | cons q bs => simp [keysOf] at hk
  | cons p as ih =>
    obtain ⟨k, v⟩ := p
    cases bs with
    | nil => simp [keysOf] at hk
    | cons q bs =>
      obtain ⟨k2, w⟩ := q
      rw [keysOf_cons, keysOf_cons] at hk
      obtain ⟨hh, hkt⟩ := List.cons.inj hk
      subst hh
      have hv : v = w := by
        have hlk := hl k
        rw [lookup_cons_self, lookup_cons_self] at hlk
        exact Option.some.inj hlk
      subst hv
      rw [keysOf_cons, List.nodup_cons] at hnd
      have htail : ∀ k', as.lookup k' = bs.lookup k' := by
        intro k'
        by_cases h : k' = k
        · subst h
          rw [lookup_eq_none_of_not_mem hnd.1,
            lookup_eq_none_of_not_mem (hkt ▸ hnd.1)]
        · have hlk := hl k'
          rwa [lookup_cons_ne v as h, lookup_cons_ne v bs h] at hlk
      rw [ih bs hkt hnd.2 htail]

theorem distinctKeys_iff (ks : List String) :
    distinctKeys ks = true ↔ ks.Nodup := by
  induction ks with
  | nil => simp [distinctKeys]
  | cons k ks ih =>
    simp [distinctKeys, ih, List.nodup_cons, List.elem_iff]

theorem wfJson_obj {fs : Fields} (h : wfJson (.obj fs) = true) :
    (keysOf fs).Nodup ∧ wfFields fs = true := by
  rw [wfJson, Bool.and_eq_true, distinctKeys_iff] at h
  exact h

theorem wfFields_mem {fs : Fields} {k : String} {v : JsonValue}
    (h : wfFields fs = true) (hm : (k, v) ∈ fs) : wfJson v = true := by
  induction fs with
  | nil => cases hm
  | cons p fs ih =>
    obtain ⟨k', v'⟩ := p
    rw [wfFields, Bool.and_eq_true] at h
    rcases List.mem_cons.mp hm with h1 | h1
    · cases h1; exact h.1
    · exact ih h.2 h1

theorem arrayFreeFields_mem {fs : Fields} {k : String} {v : JsonValue}
    (h : arrayFreeFields fs = true) (hm : (k, v) ∈ fs) :
    arrayFree v = true := by
  induction fs with
  | nil => cases hm
  | cons p fs ih =>
    obtain ⟨k', v'⟩ := p
    rw [arrayFreeFields, Bool.and_eq_true] at h
    rcases List.mem_cons.mp hm with h1 | h1
    · cases h1; exact h.1
    · exact ih h.2 h1

theorem sizeOf_val_lt_of_mem {gs : Fields} {k : String} {v : JsonValue}
    (h : (k, v) ∈ gs) : sizeOf v < sizeOf gs := by
  have h1 := List.sizeOf_lt_of_mem h
  have h2 : sizeOf (k, v) = 1 + sizeOf k + sizeOf v := by simp
  omega

theorem mergeJson_undef_left (b : JsonValue) :
    mergeJson JsonValue.undef b = b := by
  cases b <;> simp [mergeJson]

theorem mergeIdem_aux :
    ∀ n : Nat, ∀ b : JsonValue, sizeOf b ≤ n →
      arrayFree b = true → wfJson b = true →
      ∀ a : JsonValue, wfJson a = true →
        mergeJson (mergeJson a b) b = mergeJson a b := by
  intro n
  induction n with
  | zero =>
    intro b hb haf hwf a hwa
    exfalso
    cases b <;> simp at hb
  | succ n ih =>
    intro b hb haf hwf a hwa
    cases b with
    | arr xs => simp [arrayFree] at haf
    | obj gs =>
      have hwgs := wfJson_obj hwf
      have hafgs : arrayFreeFields gs = true := by
        simpa [arrayFree] using haf
      have hval : ∀ k v, gs.lookup k = some v →
          ∀ u, wfJson u = true →
            mergeJson (mergeJson u v) v = mergeJson u v := by
        intro k v hl u hu
        have hm := mem_of_lookup_eq_some hl
        have hsz : sizeOf v ≤ n := by
          have h1 := sizeOf_val_lt_of_mem hm
          have h2 : sizeOf (JsonValue.obj gs) = 1 + sizeOf gs := by simp
          omega
        exact ih v hsz (arrayFreeFields_mem hafgs hm) (wfFields_mem hwgs.2 hm) u hu
      have hself : ∀ k v, gs.lookup k = some v → mergeJson v v = v := by
        intro k v hl
        have h0 := hval k v hl JsonValue.undef (by simp [wfJson])
        rwa [mergeJson_undef_left] at h0
      have hfields : ∀ fs : Fields, (keysOf fs).Nodup → wfFields fs = true →
          mergeFields (mergeFields fs gs) gs = mergeFields fs gs := by
        intro fs hndfs hwffs
        apply fields_ext
        · exact keysOf_mergeFields_of_subset gs _
            (keysOf_source_subset_mergeFields gs fs)
        · exact nodup_keysOf_mergeFields gs (mergeFields fs gs)
            (nodup_keysOf_mergeFields gs fs hndfs hwgs.1) hwgs.1
        · intro k
          cases hk : gs.lookup k with
          | none => rw [lookup_mergeFields_none gs hwgs.1 (mergeFields fs gs) k hk]
          | some v =>
            have hcomb : mergeJson (mergeOpt (fs.lookup k) v) v
                = mergeOpt (fs.lookup k) v := by
              cases hfk : fs.lookup k with
              | none =>
                simp only [mergeOpt]
                exact hself k v hk
              | some u =>
                simp only [mergeOpt]
                exact hval k v hk u
                  (wfFields_mem hwffs (mem_of_lookup_eq_some hfk))
            rw [lookup_mergeFields_some gs hwgs.1 (mergeFields fs gs) k v hk,
              lookup_mergeFields_some gs hwgs.1 fs k v hk,
              show mergeOpt (some (mergeOpt (List.lookup k fs) v)) v
                = mergeJson (mergeOpt (List.lookup k fs) v) v from rfl,
              hcomb]
      have hselfFields : mergeFields gs gs = gs := by
        apply fields_ext
        · exact keysOf_mergeFields_of_subset gs gs (fun x hx => hx)
        · rw [keysOf_mergeFields_of_subset gs gs (fun x hx => hx)]
          exact hwgs.1
        · intro k
          cases hk : gs.lookup k with
          | none => rw [lookup_mergeFields_none gs hwgs.1 gs k hk, hk]
          | some v =>
            rw [lookup_mergeFields_some gs hwgs.1 gs k v hk, hk,
              show mergeOpt (some v) v = mergeJson v v from rfl,
              hself k v hk]
      cases a with
      | obj fs =>
        have hwfs := wfJson_obj hwa
        have key := hfields fs hwfs.1 hwfs.2
        have e1 : mergeJson (.obj fs) (.obj gs) = .obj (mergeFields fs gs) := by
          simp [mergeJson]
        have e2 : mergeJson (.obj (mergeFields fs gs)) (.obj gs)
            = .obj (mergeFields (mergeFields fs gs) gs) := by
          simp [mergeJson]
        rw [e1, e2, key]
      | null =>
        have e1 : mergeJson JsonValue.null (.obj gs) = .obj gs := by
          simp [mergeJson]
        have e2 : mergeJson (.obj gs) (.obj gs) = .obj (mergeFields gs gs) := by
          simp [mergeJson]
        rw [e1, e2, hselfFields]
      | undef =>
        have e1 : mergeJson JsonValue.undef (.obj gs) = .obj gs := by
          simp [mergeJson]
        have e2 : mergeJson (.obj gs) (.obj gs) = .obj (mergeFields gs gs) := by
          simp [mergeJson]
        rw [e1, e2, hselfFields]
      | bool c =>
        have e1 : mergeJson (JsonValue.bool c) (.obj gs) = .obj gs := by
          simp [mergeJson]
        have e2 : mergeJson (.obj gs) (.obj gs) = .obj (mergeFields gs gs) := by
          simp [mergeJson]
        rw [e1, e2, hselfFields]
      | num m =>
        have e1 : mergeJson (JsonValue.num m) (.obj gs) = .obj gs := by
          simp [mergeJson]
        have e2 : mergeJson (.obj gs) (.obj gs) = .obj (mergeFields gs gs) := by
          simp [mergeJson]
        rw [e1, e2, hselfFields]
      | str s =>
        have e1 : mergeJson (JsonValue.str s) (.obj gs) = .obj gs := by
          simp [mergeJson]
        have e2 : mergeJson (.obj gs) (.obj gs) = .obj (mergeFields gs gs) := by
          simp [mergeJson]
        rw [e1, e2, hselfFields]
      | arr xs =>
        have e1 : mergeJson (JsonValue.arr xs) (.obj gs) = .obj gs := by
          simp [mergeJson]
        have e2 : mergeJson (.obj gs) (.obj gs) = .obj (mergeFields gs gs) := by
          simp [mergeJson]
        rw [e1, e2, hselfFields]
    | null => cases a <;> simp [mergeJson]
    | undef => cases a <;> simp [mergeJson]
    | bool c => cases a <;> simp [mergeJson]
    | num m => cases a <;> simp [mergeJson]
    | str s => cases a <;> simp [mergeJson]

theorem mergeJson_idem (b a : JsonValue) (hb1 : arrayFree b = true)
    (hb2 : wfJson b = true) (ha : wfJson a = true) :
    mergeJson (mergeJson a b) b = mergeJson a b :=
  mergeIdem_aux (sizeOf b) b le_rfl hb1 hb2 a ha

theorem mergeFields_idem (fs gs : Fields) (h1 : wfJson (.obj fs) = true)
    (h2 : wfJson (.obj gs) = true) (h3 : arrayFreeFields gs = true) :
    mergeFields (mergeFields fs gs) gs = mergeFields fs gs := by
  have h := mergeJson_idem (.obj gs) (.obj fs) (by simpa [arrayFree] using h3) h2 h1
  have e1 : mergeJson (.obj fs) (.obj gs) = .obj (mergeFields fs gs) := by
    simp [mergeJson]
  have e2 : mergeJson (.obj (mergeFields fs gs)) (.obj gs)
      = .obj (mergeFields (mergeFields fs gs) gs) := by
    simp [mergeJson]
  rw [e1, e2] at h
  exact JsonValue.obj.inj h

theorem toResponse_results (req : RunFunctionRequestV) (ttl : Option DurationV) :
    ((toResponse req ttl).1).results = .val [] := rfl

theorem toResponse_context (req : RunFunctionRequestV) (ttl : Option DurationV) :
    ((toResponse req ttl).1).context = req.context := rfl

theorem fatalCore_eq {r : RunFunctionResponseV} {rs : List ResultV}
    (h : r.results = .val rs) (msg : String) :
    fatalCore r msg = { r with results := .val (rs ++ [mkResult .fatal msg]) } := by
  simp [fatalCore, h, mkResult]

/-- C5: for every request lacking a desired tree, `to` produces a response
whose desired tree is present with an empty resources map and an absent
composite; the response's desired composite is never `null`; and a request
whose desired composite is explicitly `null` yields a response whose desired
composite is the empty resource. -/
theorem toResponse_desired_spec (req : RunFunctionRequestV)
    (ttl : Option DurationV) :
    ((req.desired = .undef ∨ req.desired = .null) →
      ((toResponse req ttl).1).desired
        = .val { composite := .undef, resources := .obj [] }) ∧
    respCompositeOf ((toResponse req ttl).1) ≠ JsonValue.null ∧
    (∀ d, req.desired = .val d → d.composite = JsonValue.null →
      respCompositeOf ((toResponse req ttl).1) = emptyResource) := by
  refine ⟨?_, ?_, ?_⟩
  · rintro (h | h) <;> simp [toResponse, h]
  · cases hd : req.desired with
    | undef => simp [toResponse, respCompositeOf, hd]
    | null => simp [toResponse, respCompositeOf, hd]
    | val d =>
      cases hc : d.composite <;>
        simp [toResponse, respCompositeOf, hd, hc, emptyResource]
  · intro d hd hc
    simp [toResponse, respCompositeOf, hd, hc]

/-- Witness for C5: the desired tree is synthesized for a request lacking
one, and an explicitly `null` desired composite becomes the empty
resource. -/
theorem toResponse_desired_spec_witness :
    ((toResponse baseReq none).1).desired
      = .val { composite := .undef, resources := .obj [] } ∧
    respCompositeOf ((toResponse
      { baseReq with desired := .val { composite := JsonValue.null,
                                       resources := .obj [] } } none).1)
      = emptyResource :=
  ⟨(toResponse_desired_spec baseReq none).1 (Or.inl rfl),
   (toResponse_desired_spec _ none).2.2 _ rfl rfl⟩

/-- C6 counterexample: for a request whose meta is absent, the response's
tag is the empty string while `req.meta?.tag` is `undefined`, so the claimed
equality `to(req).meta.tag = req.meta.tag` fails. -/
theorem toResponse_tag_counterexample :
    respTagJs ((toResponse baseReq none).1) = .str ("") ∧
    reqTagJs baseReq = .undef ∧
    respTagJs ((toResponse baseReq none).1) ≠ reqTagJs baseReq := by
  refine ⟨rfl, rfl, ?_⟩
  intro h
  rw [show respTagJs ((toResponse baseReq none).1) = .str ("") from rfl,
    show reqTagJs baseReq = JsonValue.undef from rfl] at h
  exact JsonValue.noConfusion h

/-- C6 amended: the response's tag equals the request's tag whenever the
request carries a meta (including an empty tag); when the meta is absent the
response's tag is the empty string. -/
theorem toResponse_tag_spec (req : RunFunctionRequestV)
    (ttl : Option DurationV) :
    (∀ m, req.meta = .val m →
      respTagJs ((toResponse req ttl).1) = .str m.tag) ∧
    ((req.meta = .undef ∨ req.meta = .null) →
      respTagJs ((toResponse req ttl).1) = .str ("")) := by
  constructor
  · intro m hm
    by_cases ht : m.tag = ("")
    · simp [respTagJs, toResponse, jsTagOf, hm, ht]
    · simp [respTagJs, toResponse, jsTagOf, hm, ht]
  · rintro (h | h) <;> simp [respTagJs, toResponse, jsTagOf, h]

/-- Witness for C6 amended: a present meta with an empty tag round-trips;
an absent meta yields the empty tag. -/
theorem toResponse_tag_spec_witness :
    respTagJs ((toResponse
      { baseReq with meta := .val { tag := ("") } } none).1) = .str ("") ∧
    respTagJs ((toResponse baseReq none).1) = .str ("") :=
  ⟨(toResponse_tag_spec { baseReq with meta := .val { tag := ("") } } none).1
      { tag := ("") } rfl,
   (toResponse_tag_spec baseReq none).2 (Or.inl rfl)⟩

/-- C7: `getCredentials` returns the exact stored credentials value when the
name is bound in the request's credentials map, and raises a "not found"
error exactly when the name is absent (whether the map is empty, absent, or
populated with other keys). -/
theorem getCredentials_spec (req : RunFunctionRequestV) (name : String) :
    (∀ c, credLookup req name = some c → getCredentials req name = .ok c) ∧
    (credLookup req name = none →
      getCredentials req name = .error (.errorObj
        ((("credentials \"")) ++ name ++ (("\" not found"))))) := by
  constructor
  · intro c hc
    cases hcr : req.credentials with
    | val m =>
      simp only [credLookup, hcr] at hc
      simp [getCredentials, hcr, hc]
    | undef => simp only [credLookup, hcr] at hc; cases hc
    | null => simp only [credLookup, hcr] at hc; cases hc
  · intro hc
    cases hcr : req.credentials with
    | val m =>
      simp only [credLookup, hcr] at hc
      simp [getCredentials, hcr, hc]
    | undef => simp [getCredentials, hcr]
    | null => simp [getCredentials, hcr]

/-- Witness for C7: a populated map returns the stored value for a present
name; an empty map raises not-found. -/
theorem getCredentials_spec_witness :
    getCredentials reqWithCreds (("aws")) = .ok { credentialData := .undef } ∧
    getCredentials reqEmptyCreds (("aws"))
      = .error (.errorObj
        ((("credentials \"")) ++ (("aws")) ++ (("\" not found")))) :=
  ⟨(getCredentials_spec reqWithCreds (("aws"))).1
      { credentialData := .undef } rfl,
   (getCredentials_spec reqEmptyCreds (("aws"))).2 rfl⟩

/-- C8: `getContextKey` returns `(undefined, false)` when the request's
context is absent or lacks the key, and `(v, true)` when the key is bound to
`v`, even when `v` is `null` or `undefined`. -/
theorem getContextKey_spec (req : RunFunctionRequestV) (k : String) :
    (∀ fs, req.context = .obj fs → ∀ v, fs.lookup k = some v →
      getContextKey req k = (v, true)) ∧
    (∀ fs, req.context = .obj fs → fs.lookup k = none →
      getContextKey req k = (.undef, false)) ∧
    ((req.context = .undef ∨ req.context = .null) →
      getContextKey req k = (.undef, false)) := by
  refine ⟨?_, ?_, ?_⟩
  · intro fs hfs v hv
    simp [getContextKey, hfs, hv]
  · intro fs hfs hv
    simp [getContextKey, hfs, hv]
  · rintro (h | h) <;> simp [getContextKey, h]

/-- Witness for C8: a key bound to `null` is found with its value; a missing
key and an absent context yield `(undefined, false)`. -/
theorem getContextKey_spec_witness :
    getContextKey reqWithCtx (("k")) = (JsonValue.null, true) ∧
    getContextKey reqWithCtx (("j")) = (.undef, false) ∧
    getContextKey baseReq (("k")) = (.undef, false) :=
  ⟨(getContextKey_spec reqWithCtx (("k"))).1 ctxFieldsK rfl JsonValue.null rfl,
   (getContextKey_spec reqWithCtx (("j"))).2.1 ctxFieldsK rfl rfl,
   (getContextKey_spec baseReq (("k"))).2.2 (Or.inl rfl)⟩

/-- C9: `fatal`, `normal` and `warning` each append one result of the
corresponding severity carrying the given message when the response's
results list exists, and are no-ops (returning the value unchanged, never
raising — raising is not even representable, the operations being total)
when the response or its results list is absent. -/
theorem result_helpers_spec (rsp : JsOpt RunFunctionResponseV)
    (msg : String) :
    (∀ r rs, rsp = .val r → r.results = .val rs →
      fatal rsp msg
          = .val { r with results := .val (rs ++ [mkResult .fatal msg]) } ∧
      normal rsp msg
          = .val { r with results := .val (rs ++ [mkResult .normal msg]) } ∧
      warning rsp msg
          = .val { r with results := .val (rs ++ [mkResult .warning msg]) }) ∧
    (resultsAbsent rsp →
      fatal rsp msg = rsp ∧ normal rsp msg = rsp ∧ warning rsp msg = rsp) := by
  constructor
  · intro r rs h1 h2
    subst h1
    refine ⟨?_, ?_, ?_⟩ <;>
      simp [fatal, fatalCore, normal, warning, h2, mkResult]
  · intro habs
    cases rsp with
    | undef => exact ⟨rfl, rfl, rfl⟩
    | null => exact ⟨rfl, rfl, rfl⟩
    | val r =>
      rw [resultsAbsent] at habs
      rcases habs with h | h <;>
        refine ⟨?_, ?_, ?_⟩ <;>
          simp [fatal, fatalCore, normal, warning, h]

/-- Witness for C9: pushing onto an existing (empty) results list, and the
no-op on a response whose results list is `undefined`. -/
theorem result_helpers_spec_witness :
    fatal (.val baseRsp) (("boom"))
      = .val { baseRsp with results := .val [mkResult .fatal (("boom"))] } ∧
    normal (.val { baseRsp with results := .undef }) (("ok"))
      = .val { baseRsp with results := .undef } :=
  ⟨((result_helpers_spec (.val baseRsp) (("boom"))).1 baseRsp [] rfl rfl).1,
   ((result_helpers_spec (.val { baseRsp with results := .undef })
      (("ok"))).2 (Or.inl rfl)).2.1⟩

/-- C1: whenever the handler raises, `FunctionRunner.RunFunction` still
returns a response (rejection is not even representable: the runner is a
total function into responses), and that response is exactly the one
obtained by initializing from the request via `to(req)` with one single
appended result of fatal severity whose message is the raised error's
message. -/
theorem runner_converts_thrown_error
    (handler : RunFunctionRequestV → Except Thrown RunFunctionResponseV)
    (req : RunFunctionRequestV) (e : Thrown)
    (h : handler req = .error e) :
    FunctionRunner.RunFunction handler req
      = { (toResponse req none).1 with
          results := .val [mkResult .fatal (thrownMessage e)] } := by
  have h1 : FunctionRunner.RunFunction handler req
      = fatalCore (toResponse req none).1 (thrownMessage e) := by
    simp [FunctionRunner.RunFunction, h]
  rw [h1, fatalCore_eq (toResponse_results req none), List.nil_append]

/-- Witness for C1: a handler that throws `Error("boom")` yields a response
whose results list holds exactly one fatal entry with message `boom`. -/
theorem runner_converts_thrown_error_witness :
    FunctionRunner.RunFunction (fun _ => .error (.errorObj (("boom")))) baseReq
      = { (toResponse baseReq none).1 with
          results := .val [mkResult .fatal (("boom"))] } :=
  runner_converts_thrown_error _ baseReq (.errorObj (("boom"))) rfl

/-- C10: `to` does not copy the request's state. With mutation modelled as
explicit state passing, the response's desired tree is the request's
(post-call) desired tree and the response's context is the request's
context; and when the request's desired composite was explicitly `null`,
the request value after the call carries the empty resource in place of the
`null` composite, so the request is not left unchanged. -/
theorem toResponse_mutates_request (req : RunFunctionRequestV)
    (ttl : Option DurationV) (d : StateV) (h : req.desired = .val d) :
    ((toResponse req ttl).1).desired = ((toResponse req ttl).2).desired ∧
    ((toResponse req ttl).1).context = req.context ∧
    (d.composite = JsonValue.null →
      ((toResponse req ttl).2).desired
        = .val { d with composite := emptyResource } ∧
      (toResponse req ttl).2 ≠ req) := by
  refine ⟨?_, toResponse_context req ttl, ?_⟩
  · simp [toResponse, h]
  · intro hc
    constructor
    · simp [toResponse, h, hc]
    · intro heq
      have hd : ((toResponse req ttl).2).desired = .val d := by rw [heq, h]
      rw [show ((toResponse req ttl).2).desired
          = .val { d with composite := emptyResource } from by
            simp [toResponse, h, hc]] at hd
      have h3 := congrArg StateV.composite (JsOpt.val.inj hd)
      rw [hc] at h3
      simp [emptyResource] at h3

/-- Witness for C10 at a request whose desired composite is explicitly
`null`. -/
theorem toResponse_mutates_request_witness :
    ((toResponse reqNullComposite none).1).desired
      = ((toResponse reqNullComposite none).2).desired ∧
    ((toResponse reqNullComposite none).2).desired
      = .val { composite := emptyResource, resources := .obj [] } ∧
    (toResponse reqNullComposite none).2 ≠ reqNullComposite :=
  ⟨(toResponse_mutates_request reqNullComposite none _ rfl).1,
   ((toResponse_mutates_request reqNullComposite none _ rfl).2.2 rfl).1,
   ((toResponse_mutates_request reqNullComposite none _ rfl).2.2 rfl).2⟩

theorem respFields_setDesiredComposedResources (rsp : RunFunctionResponseV)
    (dcds : Fields) :
    respDesiredResourceFields (setDesiredComposedResources rsp dcds)
      = mergeFields (respDesiredResourceFields rsp) dcds := by
  cases hd : rsp.desired with
  | val d =>
    cases hr : d.resources <;>
      simp [setDesiredComposedResources, respDesiredResourceFields, hd, hr]
  | undef =>
    simp [setDesiredComposedResources, respDesiredResourceFields, hd]
  | null =>
    simp [setDesiredComposedResources, respDesiredResourceFields, hd]

/-- C3: `setDesiredComposedResources` preserves, unchanged, every key of the
pre-existing desired resources map that the caller's map does not mention;
in particular an existing map `{a: X}` merged with `{b: Y}` (for `b` distinct
from `a`) yields `{a: X, b: Y}`. -/
theorem setDesiredComposedResources_preserves (rsp : RunFunctionResponseV)
    (dcds : Fields) :
    (∀ k, k ∉ keysOf dcds →
      (respDesiredResourceFields
          (setDesiredComposedResources rsp dcds)).lookup k
        = (respDesiredResourceFields rsp).lookup k) ∧
    (∀ a X b Y, a ≠ b → respDesiredResourceFields rsp = [(a, X)] →
      dcds = [(b, Y)] →
      respDesiredResourceFields (setDesiredComposedResources rsp dcds)
        = [(a, X), (b, Y)]) := by
  constructor
  · intro k hk
    rw [respFields_setDesiredComposedResources]
    exact lookup_mergeFields_not_mem dcds _ k hk
  · intro a X b Y hab h1 h2
    rw [respFields_setDesiredComposedResources, h1, h2, mergeFields_cons,
      mergeFields_nil, lookup_cons_ne X [] (Ne.symm hab), lookup_nil]
    rw [show mergeOpt none Y = Y from rfl]
    simp [replaceField, hab]

/-- Witness for C3 at existing `{a: X}` and new `{b: Y}`. -/
theorem setDesiredComposedResources_preserves_witness :
    (respDesiredResourceFields
        (setDesiredComposedResources rspWithA [((("b")), .num 2)])).lookup (("a"))
      = (respDesiredResourceFields rspWithA).lookup (("a")) ∧
    respDesiredResourceFields
        (setDesiredComposedResources rspWithA [((("b")), .num 2)])
      = [((("a")), .num 1), ((("b")), .num 2)] :=
  ⟨(setDesiredComposedResources_preserves rspWithA [((("b")), .num 2)]).1
      (("a")) (by simp [keysOf]),
   (setDesiredComposedResources_preserves rspWithA [((("b")), .num 2)]).2
      (("a")) (.num 1) (("b")) (.num 2) (by simp) rfl rfl⟩

theorem getField_merge_statusKey (res : JsonValue) (status : Fields) :
    getField (mergeJson res (.obj [((("status")), .obj status)])) (("status"))
      = mergeJson (getField res (("status"))) (.obj status) := by
  cases res with
  | obj fs =>
    rw [show mergeJson (.obj fs) (.obj [((("status")), .obj status)])
        = .obj (mergeFields fs [((("status")), .obj status)]) from by
          simp [mergeJson],
      mergeFields_cons, mergeFields_nil]
    cases hfk : fs.lookup (("status")) with
    | some u =>
      rw [show mergeOpt (some u) (.obj status) = mergeJson u (.obj status)
          from rfl]
      simp [getField, lookup_replaceField_self, hfk]
    | none =>
      rw [show mergeOpt none (.obj status) = .obj status from rfl]
      simp [getField, lookup_replaceField_self, hfk, mergeJson_undef_left]
  | null =>
    simp [mergeJson, mergeFields, replaceField, getField, List.lookup,
      mergeJson_undef_left]
  | undef =>
    simp [mergeJson, mergeFields, replaceField, getField, List.lookup,
      mergeJson_undef_left]
  | bool c =>
    simp [mergeJson, mergeFields, replaceField, getField, List.lookup,
      mergeJson_undef_left]
  | num m =>
    simp [mergeJson, mergeFields, replaceField, getField, List.lookup,
      mergeJson_undef_left]
  | str t =>
    simp [mergeJson, mergeFields, replaceField, getField, List.lookup,
      mergeJson_undef_left]
  | arr xs =>
    simp [mergeJson, mergeFields, replaceField, getField, List.lookup,
      mergeJson_undef_left]

theorem getField_merge_otherKey (res : JsonValue) (status : Fields)
    (k : String) (hk : k ≠ (("status"))) :
    getField (mergeJson res (.obj [((("status")), .obj status)])) k
      = getField res k := by
  cases res with
  | obj fs =>
    rw [show mergeJson (.obj fs) (.obj [((("status")), .obj status)])
        = .obj (mergeFields fs [((("status")), .obj status)]) from by
          simp [mergeJson],
      mergeFields_cons, mergeFields_nil]
    simp [getField, lookup_replaceField_ne _ _ hk]
  | null =>
    simp [mergeJson, mergeFields, replaceField, getField, List.lookup,
      beq_eq_false_iff_ne.mpr hk]
  | undef =>
    simp [mergeJson, mergeFields, replaceField, getField, List.lookup,
      beq_eq_false_iff_ne.mpr hk]
  | bool c =>
    simp [mergeJson, mergeFields, replaceField, getField, List.lookup,
      beq_eq_false_iff_ne.mpr hk]
  | num m =>
    simp [mergeJson, mergeFields, replaceField, getField, List.lookup,
      beq_eq_false_iff_ne.mpr hk]
  | str t =>
    simp [mergeJson, mergeFields, replaceField, getField, List.lookup,
      beq_eq_false_iff_ne.mpr hk]
  | arr xs =>
    simp [mergeJson, mergeFields, replaceField, getField, List.lookup,
      beq_eq_false_iff_ne.mpr hk]

/-- C2 counterexample: on a response with no desired tree,
`setDesiredCompositeStatus` returns the response unchanged: no desired
composite (nor its resource object) is synthesized and the supplied status
is dropped, contradicting the claim that a destination is synthesized so
that afterwards the composite's resource object exists and holds the
status. -/
theorem setDesiredCompositeStatus_no_synthesis :
    setDesiredCompositeStatus baseRsp [((("phase")), .str (("Ready")))]
      = baseRsp ∧
    (setDesiredCompositeStatus baseRsp
        [((("phase")), .str (("Ready")))]).desired = .undef :=
  ⟨rfl, rfl⟩

/-- C2 amended: when the desired composite's resource object exists (is
truthy), `setDesiredCompositeStatus` deep-merges `{status: status}` into it:
afterwards its `status` field is the deep merge of the old `status` field
with the supplied object, and every other field is untouched; when the
response has no desired tree, no composite, or no composite resource object,
the call is a no-op returning the response unchanged (nothing is
synthesized). -/
theorem setDesiredCompositeStatus_spec (rsp : RunFunctionResponseV)
    (status : Fields) :
    (jsTruthy (respCompositeResourceOf rsp) = true →
      getField (respCompositeResourceOf
          (setDesiredCompositeStatus rsp status)) (("status"))
        = mergeJson (getField (respCompositeResourceOf rsp) (("status")))
            (.obj status) ∧
      (∀ k, k ≠ (("status")) →
        getField (respCompositeResourceOf
            (setDesiredCompositeStatus rsp status)) k
          = getField (respCompositeResourceOf rsp) k)) ∧
    (jsTruthy (respCompositeResourceOf rsp) = false →
      setDesiredCompositeStatus rsp status = rsp) := by
  constructor
  · intro htr
    cases hd : rsp.desired with
    | undef =>
      rw [respCompositeResourceOf, respCompositeOf, hd] at htr
      simp [getField, jsTruthy] at htr
    | null =>
      rw [respCompositeResourceOf, respCompositeOf, hd] at htr
      simp [getField, jsTruthy] at htr
    | val d =>
      have hres : respCompositeResourceOf rsp
          = getField d.composite (("resource")) := by
        simp [respCompositeResourceOf, respCompositeOf, hd]
      rw [hres] at htr
      cases hc : d.composite with
      | obj cfs =>
        rw [hc] at htr
        have hnew : respCompositeResourceOf
            (setDesiredCompositeStatus rsp status)
            = mergeJson (getField (.obj cfs) (("resource")))
                (.obj [((("status")), .obj status)]) := by
          rw [setDesiredCompositeStatus, hd]
          simp only [hc, htr, if_true]
          simp [respCompositeResourceOf, respCompositeOf, setProp, getField,
            lookup_replaceField_self]
        constructor
        · rw [hnew, hres, hc, getField_merge_statusKey]
        · intro k hk
          rw [hnew, hres, hc, getField_merge_otherKey _ _ _ hk]
      | null => rw [hc] at htr; simp [getField, jsTruthy] at htr
      | undef => rw [hc] at htr; simp [getField, jsTruthy] at htr
      | bool c => rw [hc] at htr; simp [getField, jsTruthy] at htr
      | num m => rw [hc] at htr; simp [getField, jsTruthy] at htr
      | str t => rw [hc] at htr; simp [getField, jsTruthy] at htr
      | arr xs => rw [hc] at htr; simp [getField, jsTruthy] at htr
  · intro hfalse
    cases hd : rsp.desired with
    | undef => simp [setDesiredCompositeStatus, hd]
    | null => simp [setDesiredCompositeStatus, hd]
    | val d =>
      have hft : jsTruthy (getField d.composite (("resource"))) = false := by
        rw [respCompositeResourceOf, respCompositeOf, hd] at hfalse
        exact hfalse
      simp [setDesiredCompositeStatus, hd, hft]

/-- Witness for C2 amended: merging `{phase: "Ready"}` into a composite
whose resource has status `{existingField: "preserved"}` yields the combined
status, and a response whose composite has no resource object is returned
unchanged. -/
theorem setDesiredCompositeStatus_spec_witness :
    getField (respCompositeResourceOf
        (setDesiredCompositeStatus rspWithStatus
          [((("phase")), .str (("Ready")))])) (("status"))
      = .obj [((("existingField")), .str (("preserved"))),
              ((("phase")), .str (("Ready")))] ∧
    setDesiredCompositeStatus rspNoResource
        [((("phase")), .str (("Ready")))] = rspNoResource := by
  constructor
  · have h := ((setDesiredCompositeStatus_spec rspWithStatus
      [((("phase")), .str (("Ready")))]).1 rfl).1
    rw [h]
    simp [rspWithStatus, respCompositeResourceOf, respCompositeOf, getField,
      List.lookup, mergeJson, mergeFields, replaceField, mergeOpt]
  · exact (setDesiredCompositeStatus_spec rspNoResource
      [((("phase")), .str (("Ready")))]).2 rfl

theorem setDesiredComposedResources_closed (rsp : RunFunctionResponseV)
    (dcds : Fields) :
    setDesiredComposedResources rsp dcds
      = { rsp with desired := .val (mergedState rsp dcds) } := by
  cases hd : rsp.desired with
  | val d =>
    cases hr : d.resources <;>
      simp [setDesiredComposedResources, mergedState, respCompositeOf,
        respDesiredResourceFields, hd, hr]
  | undef =>
    simp [setDesiredComposedResources, mergedState, respCompositeOf,
      respDesiredResourceFields, hd]
  | null =>
    simp [setDesiredComposedResources, mergedState, respCompositeOf,
      respDesiredResourceFields, hd]

theorem respCompositeOf_setDesiredComposedResources
    (rsp : RunFunctionResponseV) (dcds : Fields) :
    respCompositeOf (setDesiredComposedResources rsp dcds)
      = respCompositeOf rsp := by
  rw [setDesiredComposedResources_closed]
  rfl

/-- C4 counterexample: calling `setDesiredComposedResources` twice with the
very same map — so no array field differs between the calls — is not
idempotent as soon as a resource carries an array field: the array
concatenates with itself. Here `{r: {xs: [1]}}` merged twice yields
`{r: {xs: [1, 1]}}` while merging once yields `{r: {xs: [1]}}`. -/
theorem setDesiredComposedResources_not_idem :
    respDesiredResourceFields
        (setDesiredComposedResources
          (setDesiredComposedResources baseRsp dcdsArr) dcdsArr)
      = [((("r")), .obj [((("xs")), .arr [.num 1, .num 1])])] ∧
    respDesiredResourceFields (setDesiredComposedResources baseRsp dcdsArr)
      = [((("r")), .obj [((("xs")), .arr [.num 1])])] ∧
    setDesiredComposedResources
        (setDesiredComposedResources baseRsp dcdsArr) dcdsArr
      ≠ setDesiredComposedResources baseRsp dcdsArr := by
  have h1 : respDesiredResourceFields
      (setDesiredComposedResources baseRsp dcdsArr)
      = [((("r")), .obj [((("xs")), .arr [.num 1])])] := by
    rw [respFields_setDesiredComposedResources]
    simp [baseRsp, respDesiredResourceFields, dcdsArr, mergeFields,
      replaceField, mergeOpt, List.lookup]
  have h2 : respDesiredResourceFields
      (setDesiredComposedResources
        (setDesiredComposedResources baseRsp dcdsArr) dcdsArr)
      = [((("r")), .obj [((("xs")), .arr [.num 1, .num 1])])] := by
    rw [respFields_setDesiredComposedResources, h1]
    simp [dcdsArr, mergeFields, replaceField, mergeOpt, List.lookup,
      mergeJson]
  refine ⟨h2, h1, ?_⟩
  intro h
  have h3 := congrArg respDesiredResourceFields h
  rw [h1, h2] at h3
  simp at h3

/-- C4 amended: `setDesiredComposedResources` is idempotent under repeated
identical merges provided the caller's map and the pre-existing resources
map are well-formed JS objects and the caller's resources contain no array
fields at all; with array fields present, repeated merges concatenate (see
the counterexample), so naive idempotence fails even for arrays identical
between the calls. -/
theorem setDesiredComposedResources_idem (rsp : RunFunctionResponseV)
    (dcds : Fields)
    (h1 : wfJson (.obj (respDesiredResourceFields rsp)) = true)
    (h2 : wfJson (.obj dcds) = true)
    (h3 : arrayFreeFields dcds = true) :
    setDesiredComposedResources (setDesiredComposedResources rsp dcds) dcds
      = setDesiredComposedResources rsp dcds := by
  have key := mergeFields_idem (respDesiredResourceFields rsp) dcds h1 h2 h3
  have hms : mergedState (setDesiredComposedResources rsp dcds) dcds
      = mergedState rsp dcds := by
    simp only [mergedState, respCompositeOf_setDesiredComposedResources,
      respFields_setDesiredComposedResources, key]
  rw [setDesiredComposedResources_closed
      (setDesiredComposedResources rsp dcds) dcds, hms,
    setDesiredComposedResources_closed rsp dcds]

/-- Witness for C4 amended: merging the array-free map `{b: 2}` twice into a
response whose resources are `{a: 1}` equals merging it once. -/
theorem setDesiredComposedResources_idem_witness :
    setDesiredComposedResources
        (setDesiredComposedResources rspWithA [((("b")), .num 2)])
        [((("b")), .num 2)]
      = setDesiredComposedResources rspWithA [((("b")), .num 2)] :=
  setDesiredComposedResources_idem rspWithA [((("b")), .num 2)] rfl rfl rfl

end FnSdk
